import Mathlib

/-!
Verification development for the automatic-video-caption-generator
repository.  The transcription normalizers (processTranscription,
processWhisperTranscription, processGeminiTranscription,
generateDemoCaptions) live in the Express server source; the timeline
resolver (activeCaptions, currentWordData) and the script classifier
(containsHindi) live in CaptionedVideo/CaptionRenderer.jsx.

Modelling conventions for the JavaScript source:
  - JS numbers are embedded as rationals; a field that may be undefined
    (or whose value is NaN) is an Option, with none standing for the
    absent or non-numeric value.
  - Property access on null/undefined throws, so the normalizers return
    in an Except monad; jsDeref models the throwing access.
  - Falsy-driven defaulting (the JS || operator) is modelled by the
    jsOr helpers, which treat 0 and the empty string as falsy, exactly
    as JS does.
  - The JS string operations split(" "), join(" ") and trim() are
    embedded as structurally recursive functions so that every
    definition evaluates inside the kernel.
-/

namespace Captions

/-- A JS word object as it flows through the pipeline: producers use
either a word field or a text field for the token, and start/end for
the timing (mapped here to startSec/endSec following the spec
vocabulary).  Absent fields are none. -/
structure JWord where
  word? : Option String := none
  text? : Option String := none
  startSec? : Option ℚ := none
  endSec? : Option ℚ := none
deriving DecidableEq, Repr

/-- A raw upstream segment: text, start/end in seconds, offsets.from
and offsets.to in milliseconds (whisper.cpp format), and an optional
per-word array. -/
structure JSegment where
  text? : Option String := none
  startSec? : Option ℚ := none
  endSec? : Option ℚ := none
  offsetsFrom? : Option ℚ := none
  offsetsTo? : Option ℚ := none
  words? : Option (List JWord) := none
deriving DecidableEq, Repr

/-- A raw transcription object: any of the fields text, words,
segments, transcription may be present. -/
structure JRaw where
  text? : Option String := none
  words? : Option (List JWord) := none
  segments? : Option (List JSegment) := none
  transcription? : Option (List JSegment) := none
deriving DecidableEq, Repr

/-- A produced caption cue.  The id is 1-based; words is absent (none)
only in the degenerate fallback cues that carry no word array. -/
structure JCue where
  id : Nat
  startSec? : Option ℚ
  endSec? : Option ℚ
  text : String
  words? : Option (List JWord)
deriving DecidableEq, Repr

/-- JS property access on a possibly null/undefined value: accessing a
member of null or undefined throws a TypeError. -/
def jsDeref {α : Type} : Option α → Except Unit α
  | some a => Except.ok a
  | none => Except.error ()

/-- JS array indexing: arr[i], undefined when out of range. -/
def jsIndex {α : Type} (l : List α) (i : Nat) : Option α :=
  l.get? i

/-- JS a || d for numbers when d is a plain number: both undefined/NaN
and 0 are falsy and select the default. -/
def jsOrD (a : Option ℚ) (d : ℚ) : ℚ :=
  match a with
  | some x => if x = 0 then d else x
  | none => d

/-- JS a || b for numbers when both sides may be undefined/NaN. -/
def jsOrNum (a b : Option ℚ) : Option ℚ :=
  match a with
  | some x => if x = 0 then b else some x
  | none => b

/-- JS a || d for strings with a present default: the empty string is
falsy and selects the default. -/
def jsOrStr (a : Option String) (d : String) : String :=
  match a with
  | some s => if s = "" then d else s
  | none => d

/-- JS a || b for strings when both sides may be undefined. -/
def jsOrStrOpt (a b : Option String) : Option String :=
  match a with
  | some s => if s = "" then b else some s
  | none => b

/-- JS addition where either operand may be undefined/NaN: the result
is then NaN (none). -/
def jsAdd (a b : Option ℚ) : Option ℚ :=
  match a, b with
  | some x, some y => some (x + y)
  | _, _ => none

/-- JS subtraction with undefined/NaN propagation. -/
def jsSub (a b : Option ℚ) : Option ℚ :=
  match a, b with
  | some x, some y => some (x - y)
  | _, _ => none

/-- JS multiplication by an array index (a Nat) with NaN propagation. -/
def jsMulNat (a : Option ℚ) (n : Nat) : Option ℚ :=
  match a with
  | some x => some (x * n)
  | none => none

/-- JS division by an array length.  All call sites divide by the
length of a split result, which is at least 1, so the n = 0 branch is
unreachable there. -/
def jsDivNat (a : Option ℚ) (n : Nat) : Option ℚ :=
  match a with
  | some x => if n = 0 then none else some (x / n)
  | none => none

/-- JS text.split(" "), single-space separator, empty tokens kept,
never returns an empty array (auxiliary recursion over characters). -/
def splitSpaceAux : List Char → List Char → List String
  | [], acc => [String.mk acc.reverse]
  | c :: cs, acc =>
    if c = ' ' then String.mk acc.reverse :: splitSpaceAux cs []
    else splitSpaceAux cs (c :: acc)

/-- JS text.split(" "). -/
def jsSplitSpace (s : String) : List String :=
  splitSpaceAux s.data []

/-- JS array.join(" ") over strings. -/
def jsJoinSpace : List String → String
  | [] => ""
  | [s] => s
  | s :: rest => s ++ " " ++ jsJoinSpace rest

/-- JS array.join(" ") over possibly-undefined entries: undefined
elements are rendered as the empty string. -/
def jsJoinSpaceO (l : List (Option String)) : String :=
  jsJoinSpace (l.map (fun s? => s?.getD ""))

/-- JS s.trim(): strips whitespace from both ends. -/
def jsTrim (s : String) : String :=
  String.mk (((s.data.dropWhile Char.isWhitespace).reverse.dropWhile
    Char.isWhitespace).reverse)

/-- The placeholder caption text used by every fallback branch. -/
def noCaptionsText : String := "No captions available"

/-- The plain-text fallback cue shared verbatim by processTranscription
and processGeminiTranscription: id 1, a fixed 0..5 second window, the
raw text or the placeholder, and no words field. -/
def fallbackCue (text? : Option String) : JCue :=
  { id := 1
    startSec? := some 0
    endSec? := some 5
    text := jsOrStr text? noCaptionsText
    words? := none }

/-- Number of words per cue window in processTranscription. -/
def wordsPerSegment : Nat := 8

/-- The window-cue builder inside processTranscription: slices the
window, reads start from the first and end from the last word (a
throwing access if the window were empty), joins the word fields with
single spaces and trims. -/
def mkWindowCue (words : List JWord) (index : Nat) : Except Unit JCue := do
  let segmentWords := (words.drop (index * wordsPerSegment)).take wordsPerSegment
  let w0 ← jsDeref (jsIndex segmentWords 0)
  let wLast ← jsDeref (jsIndex segmentWords (segmentWords.length - 1))
  pure
    { id := index + 1
      startSec? := w0.startSec?
      endSec? := wLast.endSec?
      text := jsTrim (jsJoinSpaceO (segmentWords.map (fun w => w.word?)))
      words? := some segmentWords }

/-- processTranscription from the server source: falls back to a single
0..5 second cue when the word list is absent or empty, otherwise
partitions the words into ceil(n/8) consecutive windows of 8. -/
def processTranscription (t? : Option JRaw) : Except Unit (List JCue) := do
  let t ← jsDeref t?
  match t.words? with
  | none => pure [fallbackCue t.text?]
  | some words =>
    if words.length = 0 then
      pure [fallbackCue t.text?]
    else
      (List.range ((words.length + (wordsPerSegment - 1)) / wordsPerSegment)).mapM
        (mkWindowCue words)

/-- One synthesized word in the whisper.cpp branch: even subdivision of
the resolved segment span across the filtered tokens. -/
def whisperCppWord (startTime endTime : ℚ) (n : Nat) (iw : Nat × String) : JWord :=
  let wordDuration : ℚ := (endTime - startTime) / n
  let wordStartTime : ℚ := startTime + iw.1 * wordDuration
  { word? := some iw.2
    startSec? := some wordStartTime
    endSec? := some (wordStartTime + wordDuration) }

/-- One cue of the whisper.cpp branch of processWhisperTranscription:
offsets are milliseconds divided by 1000, missing offsets default to 0
and start+3, the text is trimmed, and word timing is synthesized over
the whitespace-filtered tokens. -/
def whisperCppCue (iseg : Nat × JSegment) : JCue :=
  let startTime : ℚ := jsOrD (iseg.2.offsetsFrom?.map (fun x => x / 1000)) 0
  let endTime : ℚ := jsOrD (iseg.2.offsetsTo?.map (fun x => x / 1000)) (startTime + 3)
  let text : String := jsOrStr (iseg.2.text?.map jsTrim) ""
  let allWords : List String := (jsSplitSpace text).filter (fun w => 0 < w.length)
  { id := iseg.1 + 1
    startSec? := some startTime
    endSec? := some endTime
    text := text
    words? := some (allWords.enum.map (whisperCppWord startTime endTime allWords.length)) }

/-- One verbatim word of a standard segment that supplies its own word
array: token from word || text, start from word.start || segment.start,
end from word.end || word.start + 0.5. -/
def whisperStdWord (seg : JSegment) (w : JWord) : JWord :=
  { word? := jsOrStrOpt w.word? w.text?
    startSec? := jsOrNum w.startSec? seg.startSec?
    endSec? := jsOrNum w.endSec? (jsAdd w.startSec? (some (1/2))) }

/-- One synthesized word of the uniform subdivision used by the
standard-segment branch of processWhisperTranscription and by
processGeminiTranscription: token i of n over the raw segment span
receives start + i * (end - start) / n up to start + (i+1) * same. -/
def uniformWord (start? stop? : Option ℚ) (n : Nat) (iw : Nat × String) : JWord :=
  let wordDuration : Option ℚ := jsDivNat (jsSub stop? start?) n
  { word? := some iw.2
    startSec? := jsAdd start? (jsMulNat wordDuration iw.1)
    endSec? := jsAdd start? (jsMulNat wordDuration (iw.1 + 1)) }

/-- One cue of the standard-segment branch of
processWhisperTranscription.  When the segment has no word array its
text is split (a throwing access when text is also absent) and word
timing is synthesized by uniform subdivision. -/
def whisperStdCue (iseg : Nat × JSegment) : Except Unit JCue := do
  let seg := iseg.2
  let ws ← match seg.words? with
    | some ws => pure (ws.map (whisperStdWord seg))
    | none => do
        let txt ← jsDeref seg.text?
        let toks := jsSplitSpace txt
        pure (toks.enum.map (uniformWord seg.startSec? seg.endSec? toks.length))
  pure
    { id := iseg.1 + 1
      startSec? := some (jsOrD seg.startSec? 0)
      endSec? := jsOrNum seg.endSec? (jsAdd seg.startSec? (some 3))
      text := jsOrStr seg.text? ""
      words? := some ws }

/-- The plain-text fallback cue of processWhisperTranscription: unlike
the other two normalizers it also synthesizes a word array by splitting
the text and assigning each word a fixed half-second slot. -/
def whisperFallbackCue (text? : Option String) : JCue :=
  let fullText := jsOrStr text? noCaptionsText
  { id := 1
    startSec? := some 0
    endSec? := some 5
    text := fullText
    words? := some ((jsSplitSpace fullText).enum.map (fun iw =>
      { word? := some iw.2
        startSec? := some (iw.1 * (1/2))
        endSec? := some ((iw.1 + 1) * (1/2)) })) }

/-- processWhisperTranscription from the server source: handles the
whisper.cpp JSON shape first, then the plain-text fallback, then the
standard segments shape. -/
def processWhisperTranscription (t? : Option JRaw) : Except Unit (List JCue) := do
  let t ← jsDeref t?
  match t.transcription? with
  | some segments => pure (segments.enum.map whisperCppCue)
  | none =>
    match t.segments? with
    | none => pure [whisperFallbackCue t.text?]
    | some [] => pure [whisperFallbackCue t.text?]
    | some segments => segments.enum.mapM whisperStdCue

/-- One cue of processGeminiTranscription: id, raw start/end and text
copied from the segment, words synthesized by uniform subdivision of
the unfiltered split of the text (a throwing access when the segment
text is absent). -/
def geminiCue (iseg : Nat × JSegment) : Except Unit JCue := do
  let seg := iseg.2
  let txt ← jsDeref seg.text?
  let toks := jsSplitSpace txt
  pure
    { id := iseg.1 + 1
      startSec? := seg.startSec?
      endSec? := seg.endSec?
      text := txt
      words? := some (toks.enum.map (uniformWord seg.startSec? seg.endSec? toks.length)) }

/-- processGeminiTranscription from the server source: the shared
fallback cue when segments are absent or empty, one geminiCue per
segment otherwise. -/
def processGeminiTranscription (t? : Option JRaw) : Except Unit (List JCue) := do
  let t ← jsDeref t?
  match t.segments? with
  | none => pure [fallbackCue t.text?]
  | some [] => pure [fallbackCue t.text?]
  | some segments => segments.enum.mapM geminiCue

/-- The hard-coded demo texts of generateDemoCaptions. -/
def demoTexts : List String :=
  ["Welcome to this amazing video demonstration",
   "यह एक बेहतरीन वीडियो का उदाहरण है",
   "This shows how captions work perfectly",
   "Multiple styles और effects के साथ",
   "Beautiful typography and smooth animations",
   "Perfect for all your video needs"]

/-- generateDemoCaptions from the server source: cue i spans
3i .. 3(i+1) seconds, while its words get fixed 0.4-second slots
starting at 3i. -/
def generateDemoCaptions : List JCue :=
  demoTexts.enum.map (fun it =>
    { id := it.1 + 1
      startSec? := some (it.1 * 3)
      endSec? := some ((it.1 + 1) * 3)
      text := it.2
      words? := some ((jsSplitSpace it.2).enum.map (fun iw =>
        { word? := some iw.2
          startSec? := some (it.1 * 3 + iw.1 * (2/5))
          endSec? := some (it.1 * 3 + (iw.1 + 1) * (2/5)) })) })

/-- The renderer preset object; only its style field is inspected by
the timeline resolver. -/
structure Preset where
  style : String
deriving DecidableEq, Repr

/-- The ephemeral active-word state: the found word together with its
clamped progress fraction. -/
structure ActiveWord where
  word : JWord
  progress : ℚ
deriving DecidableEq, Repr

/-- The span test used for both cues and words in CaptionedVideo:
start <= t && t <= end, inclusive on both ends; a comparison against an
undefined or NaN bound is false. -/
def timeWithin (t : ℚ) (start? stop? : Option ℚ) : Bool :=
  match start?, stop? with
  | some a, some b => decide (a ≤ t) && decide (t ≤ b)
  | _, _ => false

/-- activeCaptions from CaptionedVideo: the cues whose inclusive span
contains the current time, kept in transcript order. -/
def activeCaptions (captions : List JCue) (currentTime : ℚ) : List JCue :=
  captions.filter (fun c => timeWithin currentTime c.startSec? c.endSec?)

/-- Modelled from the spec: the remotion interpolate call used for the
karaoke progress value is an external npm dependency whose source is
not part of this repository, so it is taken from the spec definition of
progressFraction: clamp((t - start) / (end - start), 0, 1) with the
zero-length span defined as instantaneously complete (1).  Undefined
bounds are outside the spec contract and map to 0. -/
def interpolate01 (t : ℚ) (start? stop? : Option ℚ) : ℚ :=
  match start?, stop? with
  | some a, some b => if a = b then 1 else max 0 (min 1 ((t - a) / (b - a)))
  | _, _ => 0

/-- The word search of the karaoke branch: the first word of the cue
whose inclusive span contains the current time. -/
def findCurrentWord (ws : List JWord) (t : ℚ) : Option JWord :=
  ws.find? (fun w => timeWithin t w.startSec? w.endSec?)

/-- The per-cue part of currentWordData: no state when the cue has no
word array or no word matches, otherwise the found word paired with its
interpolated progress. -/
def activeWordInCue (cue : JCue) (t : ℚ) : Option ActiveWord :=
  match cue.words? with
  | none => none
  | some ws =>
    match findCurrentWord ws t with
    | none => none
    | some w => some { word := w, progress := interpolate01 t w.startSec? w.endSec? }

/-- currentWordData from CaptionedVideo: null unless the preset style
is exactly karaoke and some cue is active; otherwise the word search
runs over the first active cue only. -/
def currentWordData (captions : List JCue) (preset : Preset) (t : ℚ) : Option ActiveWord :=
  if preset.style ≠ "karaoke" ∨ (activeCaptions captions t).length = 0 then none
  else
    match (activeCaptions captions t).head? with
    | none => none
    | some activeCaption => activeWordInCue activeCaption t

/-- containsHindi from CaptionRenderer: true exactly when some
character of the text lies in the Devanagari block 0x0900 .. 0x097F. -/
def containsHindi (text : String) : Bool :=
  text.data.any (fun c => decide (0x0900 ≤ c.toNat) && decide (c.toNat ≤ 0x097F))

/-! Helper lemmas. -/

lemma splitSpaceAux_ne_nil (cs acc : List Char) : splitSpaceAux cs acc ≠ [] := by
  induction cs generalizing acc with
  | nil => simp [splitSpaceAux]
  | cons c cs ih =>
    by_cases hc : c = ' '
    · simp [splitSpaceAux, hc]
    · simp only [splitSpaceAux, if_neg hc]
      exact ih _

lemma jsSplitSpace_ne_nil (s : String) : jsSplitSpace s ≠ [] :=
  splitSpaceAux_ne_nil _ _

lemma mapM_loop_ok {α β : Type} (f : α → Except Unit β) (g : α → β) :
    ∀ (l : List α) (acc : List β), (∀ a ∈ l, f a = Except.ok (g a)) →
      List.mapM.loop f l acc = Except.ok (acc.reverse ++ l.map g) := by
  intro l
  induction l with
  | nil => intro acc _; simp [List.mapM.loop, pure, Except.pure]
  | cons a t ih =>
    intro acc h
    simp only [List.mapM.loop]
    rw [h a (by simp)]
    simp only [Bind.bind, Except.bind]
    rw [ih (g a :: acc) (fun b hb => h b (by simp [hb]))]
    simp

lemma mapM_ok_of_forall {α β : Type} (f : α → Except Unit β) (g : α → β)
    (l : List α) (h : ∀ a ∈ l, f a = Except.ok (g a)) :
    l.mapM f = Except.ok (l.map g) := by
  simpa [List.mapM] using mapM_loop_ok f g l [] h

lemma mapM_loop_isOk {α β : Type} (f : α → Except Unit β) :
    ∀ (l : List α) (acc : List β), (∀ a ∈ l, (f a).isOk = true) →
      (List.mapM.loop f l acc).isOk = true := by
  intro l
  induction l with
  | nil =>
    intro acc _
    simp [List.mapM.loop, pure, Except.pure, Except.isOk, Except.toBool]
  | cons a t ih =>
    intro acc h
    have ha := h a (by simp)
    rcases hfa : f a with e | b
    · rw [hfa] at ha; simp [Except.isOk, Except.toBool] at ha
    · simp only [List.mapM.loop, hfa, Bind.bind, Except.bind]
      exact ih (b :: acc) (fun x hx => h x (by simp [hx]))

lemma mapM_isOk_of_forall {α β : Type} (f : α → Except Unit β)
    (l : List α) (h : ∀ a ∈ l, (f a).isOk = true) :
    (l.mapM f).isOk = true := by
  simpa [List.mapM] using mapM_loop_isOk f l [] h

lemma window_ne_nil {α : Type} {ws : List α} {i : Nat} (hi : i * 8 < ws.length) :
    (ws.drop (i * 8)).take 8 ≠ [] := by
  have h1 : ws.drop (i * 8) ≠ [] := by
    intro h
    have := List.drop_eq_nil_iff.mp h
    omega
  cases hws : ws.drop (i * 8) with
  | nil => exact absurd hws h1
  | cons a t => simp [hws]

lemma join_chunks {α : Type} :
    ∀ (n : Nat) (l : List α), l.length ≤ n →
      ((List.range ((l.length + 7) / 8)).map (fun i => (l.drop (i * 8)).take 8)).flatten = l := by
  intro n
  induction n with
  | zero =>
    intro l hl
    have h0 : l = [] := List.length_eq_zero.mp (Nat.le_zero.mp hl)
    subst h0
    simp
  | succ n ih =>
    intro l hl
    rcases hle : l with _ | ⟨a, l0⟩
    · simp
    · have hm1 : 1 ≤ l.length := by rw [hle]; simp
      rw [← hle]
      have hq : (l.length + 7) / 8 = ((l.drop 8).length + 7) / 8 + 1 := by
        rw [List.length_drop]; omega
      rw [hq, List.range_succ_eq_map]
      simp only [List.map_cons, List.map_map, List.flatten_cons, Nat.zero_mul,
        List.drop_zero]
      have hrest :
          (List.map ((fun i => (l.drop (i * 8)).take 8) ∘ Nat.succ)
            (List.range (((l.drop 8).length + 7) / 8))).flatten = l.drop 8 := by
        have hcongr :
            List.map ((fun i => (l.drop (i * 8)).take 8) ∘ Nat.succ)
              (List.range (((l.drop 8).length + 7) / 8))
            = List.map (fun i => ((l.drop 8).drop (i * 8)).take 8)
              (List.range (((l.drop 8).length + 7) / 8)) := by
          apply List.map_congr_left
          intro i _
          simp only [Function.comp]
          rw [List.drop_drop]
          congr 2
          omega
        rw [hcongr]
        exact ih (l.drop 8) (by rw [List.length_drop]; omega)
      rw [hrest, List.take_append_drop]

/-- Proof-side value of the cue that mkWindowCue produces at index i:
the head?/getLast? bind forms agree with the first/last member accesses
whenever the window is nonempty. -/
def windowCueSpec (ws : List JWord) (i : Nat) : JCue :=
  { id := i + 1
    startSec? := ((ws.drop (i * 8)).take 8).head?.bind (fun w => w.startSec?)
    endSec? := ((ws.drop (i * 8)).take 8).getLast?.bind (fun w => w.endSec?)
    text := jsTrim (jsJoinSpaceO (((ws.drop (i * 8)).take 8).map (fun w => w.word?)))
    words? := some ((ws.drop (i * 8)).take 8) }

lemma mkWindowCue_eq_spec (ws : List JWord) (i : Nat) (hi : i * 8 < ws.length) :
    mkWindowCue ws i = Except.ok (windowCueSpec ws i) := by
  have hne : (ws.drop (i * 8)).take 8 ≠ [] := window_ne_nil hi
  rcases hh : ((ws.drop (i * 8)).take 8).head? with _ | w0
  · rw [List.head?_eq_none_iff] at hh
    exact absurd hh hne
  rcases hl : ((ws.drop (i * 8)).take 8).getLast? with _ | wLast
  · rw [List.getLast?_eq_none_iff] at hl
    exact absurd hl hne
  have h0 : jsIndex ((ws.drop (i * 8)).take 8) 0 = some w0 := by
    rw [jsIndex, List.get?_eq_getElem?, ← List.head?_eq_getElem?]
    exact hh
  have hL : jsIndex ((ws.drop (i * 8)).take 8)
      (((ws.drop (i * 8)).take 8).length - 1) = some wLast := by
    rw [jsIndex, List.get?_eq_getElem?, ← List.getLast?_eq_getElem?]
    exact hl
  simp only [mkWindowCue, wordsPerSegment, h0, hL, jsDeref, Bind.bind, Except.bind,
    pure, Except.pure, windowCueSpec, hh, hl, Option.bind_some]
  rfl

/-- The 17 timestamped words used by the windowing scenario. -/
def scenarioWords17 : List JWord :=
  (List.range 17).map (fun (j : ℕ) =>
    { word? := some ("w"), startSec? := some ((j : ℚ)),
      endSec? := some ((j.succ : ℚ)) })

/-- Claim C1: for every non-empty word list, processTranscription
partitions the words in input order into ceil(n/8) windows of 8 (only
the last shorter), cue i+1 carrying the window verbatim, its first
word start, its last word end, and the space-joined trimmed text; the
cues concatenate back to the input, and 17 words give 3 cues of sizes
8, 8, 1 with ids 1, 2, 3. -/
theorem c1_segmentWords_windows (ws : List JWord) (h : ws ≠ []) (raw : JRaw)
    (hr : raw.words? = some ws) :
    (∃ cues : List JCue,
      processTranscription (some raw) = Except.ok cues
      ∧ cues.length = (ws.length + 7) / 8
      ∧ (∀ i : Nat, ∀ hi : i < cues.length,
          (cues.get ⟨i, hi⟩).id = i + 1
          ∧ (cues.get ⟨i, hi⟩).words? = some ((ws.drop (i * 8)).take 8)
          ∧ (∃ w0 wLast,
              ((ws.drop (i * 8)).take 8).head? = some w0
              ∧ ((ws.drop (i * 8)).take 8).getLast? = some wLast
              ∧ (cues.get ⟨i, hi⟩).startSec? = w0.startSec?
              ∧ (cues.get ⟨i, hi⟩).endSec? = wLast.endSec?)
          ∧ (cues.get ⟨i, hi⟩).text
              = jsTrim (jsJoinSpaceO (((ws.drop (i * 8)).take 8).map (fun w => w.word?))))
      ∧ (cues.map (fun c => c.words?.getD [])).flatten = ws)
    ∧ (processTranscription (some { words? := some scenarioWords17 })).toOption.map
        (fun cs => (cs.map (fun c => c.id), cs.map (fun c => (c.words?.getD []).length)))
      = some ([1, 2, 3], [8, 8, 1]) := by
  constructor
  · have hlen : 0 < ws.length := List.length_pos.mpr h
    refine ⟨(List.range ((ws.length + 7) / 8)).map (windowCueSpec ws), ?_, ?_, ?_, ?_⟩
    · have hmap : (List.range ((ws.length + 7) / 8)).mapM (mkWindowCue ws)
          = Except.ok ((List.range ((ws.length + 7) / 8)).map (windowCueSpec ws)) := by
        apply mapM_ok_of_forall
        intro i hi
        apply mkWindowCue_eq_spec
        rw [List.mem_range] at hi
        omega
      simp only [processTranscription, jsDeref, Bind.bind, Except.bind, hr,
        wordsPerSegment]
      rw [if_neg (by omega)]
      exact hmap
    · simp
    · intro i hi
      simp only [List.length_map, List.length_range] at hi
      have hget : (((List.range ((ws.length + 7) / 8)).map (windowCueSpec ws)).get
          ⟨i, by simpa using hi⟩) = windowCueSpec ws i := by
        simp [List.get_eq_getElem]
      rw [hget]
      have hiw : i * 8 < ws.length := by omega
      have hne : (ws.drop (i * 8)).take 8 ≠ [] := window_ne_nil hiw
      rcases hh : ((ws.drop (i * 8)).take 8).head? with _ | w0
      · rw [List.head?_eq_none_iff] at hh
        exact absurd hh hne
      rcases hl : ((ws.drop (i * 8)).take 8).getLast? with _ | wLast
      · rw [List.getLast?_eq_none_iff] at hl
        exact absurd hl hne
      refine ⟨rfl, rfl, ⟨w0, wLast, ?_, ?_, ?_, ?_⟩, rfl⟩ <;>
        simp [windowCueSpec, hh, hl]
    · rw [List.map_map]
      have hcongr : (List.range ((ws.length + 7) / 8)).map
            ((fun c => c.words?.getD []) ∘ windowCueSpec ws)
          = (List.range ((ws.length + 7) / 8)).map
            (fun i => (ws.drop (i * 8)).take 8) := by
        apply List.map_congr_left
        intro i _
        simp [windowCueSpec, Function.comp]
      rw [hcongr]
      exact join_chunks ws.length ws le_rfl
  · decide

/-- Witness for C1 at the concrete 17-word scenario input. -/
theorem c1_segmentWords_windows_witness :
    scenarioWords17 ≠ []
    ∧ ({ words? := some scenarioWords17 } : JRaw).words? = some scenarioWords17
    ∧ ∃ cues, processTranscription (some { words? := some scenarioWords17 })
        = Except.ok cues := by
  refine ⟨by decide, rfl, ?_⟩
  obtain ⟨⟨cues, hc, _⟩, _⟩ :=
    c1_segmentWords_windows scenarioWords17 (by decide)
      { words? := some scenarioWords17 } rfl
  exact ⟨cues, hc⟩

/-- First cue of the shared-boundary scenario for the active-cue query. -/
def boundaryCueA : JCue :=
  { id := 1, startSec? := some 0, endSec? := some 5, text := "a", words? := none }

/-- Second cue of the shared-boundary scenario: starts exactly where
the first one ends. -/
def boundaryCueB : JCue :=
  { id := 2, startSec? := some 5, endSec? := some 9, text := "b", words? := none }

/-- Claim C4: the active-cue query returns exactly the cues whose
inclusive span contains the query time, in transcript order (a sublist
of the transcript); it is idempotent, empty when the time lies outside
every spanned interval, and at a shared boundary both adjacent cues
are reported. -/
theorem c4_activeCues (captions : List JCue) (t : ℚ) :
    (∀ c a b, c.startSec? = some a → c.endSec? = some b →
      (c ∈ activeCaptions captions t ↔ c ∈ captions ∧ a ≤ t ∧ t ≤ b))
    ∧ (activeCaptions captions t).Sublist captions
    ∧ activeCaptions (activeCaptions captions t) t = activeCaptions captions t
    ∧ ((∀ c ∈ captions, (c.startSec?).isSome ∧ (c.endSec?).isSome) →
        (∀ c ∈ captions, ∀ a b, c.startSec? = some a → c.endSec? = some b →
          ¬(a ≤ t ∧ t ≤ b)) →
        activeCaptions captions t = [])
    ∧ activeCaptions [boundaryCueA, boundaryCueB] 5 = [boundaryCueA, boundaryCueB] := by
  refine ⟨?_, List.filter_sublist _, ?_, ?_, ?_⟩
  · intro c a b ha hb
    simp [activeCaptions, List.mem_filter, timeWithin, ha, hb, and_assoc]
  · simp [activeCaptions, List.filter_filter]
  · intro hsome hout
    rw [activeCaptions, List.filter_eq_nil_iff]
    intro c hc
    obtain ⟨hs, he⟩ := hsome c hc
    obtain ⟨a, ha⟩ := Option.isSome_iff_exists.mp hs
    obtain ⟨b, hb⟩ := Option.isSome_iff_exists.mp he
    have hnot := hout c hc a b ha hb
    simp only [timeWithin, ha, hb, Bool.and_eq_true, decide_eq_true_eq]
    exact hnot
  · decide

/-- Witness for C4 at the shared-boundary transcript and time 5. -/
theorem c4_activeCues_witness :
    boundaryCueA.startSec? = some 0 ∧ boundaryCueA.endSec? = some 5
    ∧ (boundaryCueA ∈ activeCaptions [boundaryCueA, boundaryCueB] 5
        ↔ boundaryCueA ∈ [boundaryCueA, boundaryCueB] ∧ (0 : ℚ) ≤ 5 ∧ (5 : ℚ) ≤ 5) := by
  refine ⟨rfl, rfl, ?_⟩
  exact (c4_activeCues [boundaryCueA, boundaryCueB] 5).1 boundaryCueA 0 5 rfl rfl

/-- Claim C5: when the karaoke word search lands on a word whose start
equals its end (necessarily at exactly that timestamp), the returned
state carries progressFraction 1 and nothing is raised. -/
theorem c5_zero_length_word (cue : JCue) (t : ℚ) (st : ActiveWord)
    (h : activeWordInCue cue t = some st)
    (hs : st.word.startSec? = some t) (he : st.word.endSec? = some t) :
    st.progress = 1 := by
  rcases hw : cue.words? with _ | ws
  · simp [activeWordInCue, hw] at h
  · rcases hf : findCurrentWord ws t with _ | w
    · simp [activeWordInCue, hw, hf] at h
    · simp only [activeWordInCue, hw, hf, Option.some.injEq] at h
      subst h
      simp only at hs he
      simp [interpolate01, hs, he]

/-- The zero-length word of the C5 scenario: start = end = 2. -/
def zeroLenWord : JWord :=
  { word? := some ("x"), startSec? := some 2, endSec? := some 2 }

/-- The cue holding the zero-length word of the C5 scenario. -/
def zeroLenCue : JCue :=
  { id := 1, startSec? := some 2, endSec? := some 2, text := "x",
    words? := some [zeroLenWord] }

/-- Witness for C5 at the word with start = end = 2 queried at 2. -/
theorem c5_zero_length_word_witness :
    activeWordInCue zeroLenCue 2 = some { word := zeroLenWord, progress := 1 }
    ∧ ({ word := zeroLenWord, progress := 1 } : ActiveWord).progress = 1 := by
  refine ⟨by decide, ?_⟩
  exact c5_zero_length_word zeroLenCue 2 _ (by decide) (by decide) (by decide)

/-- Claim C9: the script classifier flags a text exactly when it
contains a code point in the Devanagari block 0x0900 .. 0x097F; the
mixed Hindi-English sample is flagged and the plain Latin sample is
not. -/
theorem c9_containsHindi :
    (∀ s : String, containsHindi s = true
      ↔ ∃ c ∈ s.data, 0x0900 ≤ c.toNat ∧ c.toNat ≤ 0x097F)
    ∧ containsHindi ("यह एक test") = true
    ∧ containsHindi ("hello world") = false := by
  refine ⟨?_, by decide, by decide⟩
  intro s
  simp [containsHindi, List.any_eq_true]

/-- Claim C10: the karaoke word state is computed only under the exact
style string karaoke with at least one active cue, and it only ever
searches the word list of the first active cue: transcripts agreeing on
the first active cue agree on the result, and a returned word belongs
to the first active cue. -/
theorem c10_currentWordData :
    (∀ captions p t, p.style ≠ "karaoke" → currentWordData captions p t = none)
    ∧ (∀ captions p t, activeCaptions captions t = [] →
        currentWordData captions p t = none)
    ∧ (∀ captions captions2 p t,
        (activeCaptions captions t).head? = (activeCaptions captions2 t).head? →
        currentWordData captions p t = currentWordData captions2 p t)
    ∧ (∀ captions p t st, currentWordData captions p t = some st →
        p.style = "karaoke"
        ∧ ∃ c ws, (activeCaptions captions t).head? = some c
            ∧ c.words? = some ws ∧ st.word ∈ ws) := by
  refine ⟨?_, ?_, ?_, ?_⟩
  · intro captions p t h
    simp [currentWordData, h]
  · intro captions p t h
    simp [currentWordData, h]
  · intro captions captions2 p t hh
    by_cases hstyle : p.style = "karaoke"
    · rcases h1 : (activeCaptions captions t).head? with _ | c
      · have h2 : (activeCaptions captions2 t).head? = none := by rw [← hh]; exact h1
        rw [List.head?_eq_none_iff] at h1 h2
        simp [currentWordData, h1, h2]
      · have h2 : (activeCaptions captions2 t).head? = some c := by rw [← hh]; exact h1
        have hne1 : ¬(activeCaptions captions t).length = 0 := by
          intro hc
          rw [List.length_eq_zero] at hc
          rw [hc] at h1
          simp at h1
        have hne2 : ¬(activeCaptions captions2 t).length = 0 := by
          intro hc
          rw [List.length_eq_zero] at hc
          rw [hc] at h2
          simp at h2
        simp [currentWordData, hstyle, hne1, hne2, h1, h2]
    · simp [currentWordData, hstyle]
  · intro captions p t st h
    by_cases hstyle : p.style = "karaoke"
    · refine ⟨hstyle, ?_⟩
      rcases h1 : (activeCaptions captions t).head? with _ | c
      · rw [List.head?_eq_none_iff] at h1
        simp [currentWordData, h1] at h
      · have hne1 : ¬(activeCaptions captions t).length = 0 := by
          intro hc
          rw [List.length_eq_zero] at hc
          rw [hc] at h1
          simp at h1
        simp only [currentWordData, hstyle, hne1, h1, ne_eq, not_true_eq_false,
          false_or, if_false] at h
        rcases hw : c.words? with _ | ws
        · simp [activeWordInCue, hw] at h
        · rcases hf : findCurrentWord ws t with _ | w
          · simp [activeWordInCue, hw, hf] at h
          · refine ⟨c, ws, rfl, hw, ?_⟩
            simp only [activeWordInCue, hw, hf, Option.some.injEq] at h
            subst h
            exact List.mem_of_find?_eq_some hf
    · simp [currentWordData, hstyle] at h

/-- Witness for C10: a non-karaoke preset yields no word state. -/
theorem c10_currentWordData_witness :
    (({ style := "top-bar" } : Preset).style ≠ "karaoke")
    ∧ currentWordData [zeroLenCue] { style := "top-bar" } 2 = none := by
  refine ⟨by decide, ?_⟩
  exact c10_currentWordData.1 [zeroLenCue] { style := "top-bar" } 2 (by decide)


/-- A raw input carrying exactly one cloud-STT segment with text and
numeric start/end, as consumed by the gemini normalizer. -/
def geminiSingleSegRaw (a b : ℚ) (text : String) : JRaw :=
  { segments? := some [{ text? := some text, startSec? := some a, endSec? := some b }] }

/-- The split of a JS string is never empty, so the division by the
token count in the uniform subdivision never divides by zero. -/
lemma jsSplitSpace_length_pos (s : String) : 0 < (jsSplitSpace s).length := by
  have h := jsSplitSpace_ne_nil s
  cases hs : jsSplitSpace s with
  | nil => exact absurd hs h
  | cons a t => simp [hs]

/-- Claim C2 (amended): gemini uniform subdivision splits the segment
text on the space character keeping empty tokens (the token count n is
therefore always at least 1); token i receives exactly the span
start + i*(end-start)/n .. start + (i+1)*(end-start)/n, so starts are
non-decreasing, the first word starts at start, the last word ends at
end, and the 3..6 scenario over three words gives 3..4, 4..5, 5..6. -/
theorem c2_uniform_subdivision (a b : ℚ) (hab : a ≤ b) (text : String) :
    (∃ ws : List JWord,
      processGeminiTranscription (some (geminiSingleSegRaw a b text))
        = Except.ok [{ id := 1, startSec? := some a, endSec? := some b,
                       text := text, words? := some ws }]
      ∧ ws.length = (jsSplitSpace text).length
      ∧ (∀ i : Nat, ∀ w, ws[i]? = some w →
          w.word? = (jsSplitSpace text)[i]?
          ∧ w.startSec? = some (a + i * ((b - a) / (jsSplitSpace text).length))
          ∧ w.endSec? = some (a + (i + 1) * ((b - a) / (jsSplitSpace text).length)))
      ∧ (∀ i j : Nat, ∀ wi wj, i ≤ j → ws[i]? = some wi → ws[j]? = some wj →
          ∃ si sj, wi.startSec? = some si ∧ wj.startSec? = some sj ∧ si ≤ sj)
      ∧ ws.head?.bind (fun w => w.startSec?) = some a
      ∧ ws.getLast?.bind (fun w => w.endSec?) = some b)
    ∧ (processGeminiTranscription (some (geminiSingleSegRaw 3 6 ("one two three")))).toOption.map
        (fun cs => cs.map (fun c => (c.words?.getD []).map
          (fun w => (w.word?, w.startSec?, w.endSec?))))
      = some [[(some ("one"), some 3, some 4),
               (some ("two"), some 4, some 5),
               (some ("three"), some 5, some 6)]] := by
  constructor
  · have hnpos := jsSplitSpace_length_pos text
    have hn : (jsSplitSpace text).length ≠ 0 := by omega
    have hcast : ((jsSplitSpace text).length : ℚ) ≠ 0 := by
      exact_mod_cast hn
    refine ⟨(jsSplitSpace text).enum.map
      (uniformWord (some a) (some b) (jsSplitSpace text).length), ?_, ?_, ?_, ?_, ?_, ?_⟩
    · simp only [geminiSingleSegRaw, processGeminiTranscription, jsDeref,
        Bind.bind, Except.bind, List.enum_cons, List.enumFrom, List.mapM,
        List.mapM.loop, geminiCue, pure, Except.pure, List.enum]
      rfl
    · simp [List.enum_length]
    · intro i w hw
      rw [List.getElem?_map, List.getElem?_enum] at hw
      rcases htok : (jsSplitSpace text)[i]? with _ | tok
      · rw [htok] at hw; simp at hw
      · rw [htok] at hw
        simp only [Option.map_some', Option.some.injEq] at hw
        subst hw
        refine ⟨?_, ?_, ?_⟩
        · simp [uniformWord]
        · simp only [uniformWord, jsSub, jsDivNat, if_neg hn, jsMulNat, jsAdd,
            Option.some.injEq]
          ring
        · simp only [uniformWord, jsSub, jsDivNat, if_neg hn, jsMulNat, jsAdd,
            Option.some.injEq]
          push_cast
          ring
    · intro i j wi wj hij hwi hwj
      have hdnn : 0 ≤ (b - a) / ((jsSplitSpace text).length : ℚ) := by
        apply div_nonneg
        · linarith
        · positivity
      rw [List.getElem?_map, List.getElem?_enum] at hwi hwj
      rcases htoki : (jsSplitSpace text)[i]? with _ | toki
      · rw [htoki] at hwi; simp at hwi
      rcases htokj : (jsSplitSpace text)[j]? with _ | tokj
      · rw [htokj] at hwj; simp at hwj
      rw [htoki] at hwi
      rw [htokj] at hwj
      simp only [Option.map_some', Option.some.injEq] at hwi hwj
      subst hwi
      subst hwj
      refine ⟨a + (b - a) / ((jsSplitSpace text).length : ℚ) * i,
              a + (b - a) / ((jsSplitSpace text).length : ℚ) * j, ?_, ?_, ?_⟩
      · simp only [uniformWord, jsSub, jsDivNat, if_neg hn, jsMulNat, jsAdd]
      · simp only [uniformWord, jsSub, jsDivNat, if_neg hn, jsMulNat, jsAdd]
      · have hij2 : ((i : ℚ)) ≤ ((j : ℚ)) := by exact_mod_cast hij
        nlinarith
    · rcases htoks : jsSplitSpace text with _ | ⟨t0, ts⟩
      · exact absurd htoks (jsSplitSpace_ne_nil text)
      · rw [htoks] at hn
        simp only [List.enum_cons, List.map_cons, List.head?_cons, Option.some_bind,
          uniformWord, jsSub, jsDivNat, if_neg hn, jsMulNat, jsAdd, Option.some.injEq]
        push_cast
        ring
    · have hlen : ((jsSplitSpace text).enum.map
          (uniformWord (some a) (some b) (jsSplitSpace text).length)).length
          = (jsSplitSpace text).length := by
        simp [List.enum_length]
      rw [List.getLast?_eq_getElem?, hlen, List.getElem?_map, List.getElem?_enum]
      rcases htok : (jsSplitSpace text)[(jsSplitSpace text).length - 1]? with _ | tok
      · rw [List.getElem?_eq_none_iff] at htok
        omega
      · simp only [Option.map_some', Option.some_bind, uniformWord, jsSub,
          jsDivNat, if_neg hn, jsMulNat, jsAdd, Option.some.injEq]
        have hsub : ((jsSplitSpace text).length - 1 + 1 : ℕ) = (jsSplitSpace text).length := by
          omega
        rw [hsub]
        field_simp
  · have hsp : jsSplitSpace ("one two three") = [("one"), ("two"), ("three")] := by
      decide
    norm_num [geminiSingleSegRaw, processGeminiTranscription, jsDeref,
      Bind.bind, Except.bind, List.enum_cons, List.enumFrom, List.mapM,
      List.mapM.loop, geminiCue, pure, Except.pure, List.enum, hsp,
      Except.toOption, uniformWord, jsSub, jsDivNat, jsMulNat, jsAdd]


/-- Counterexample to C2 as stated: splitting keeps empty tokens, so a
doubled space inside the text produces a middle word whose token is the
empty string, timed with n = 3, where the claimed discarding of empty
tokens would have produced two words over n = 2. -/
theorem c2_counterexample :
    (processGeminiTranscription (some (geminiSingleSegRaw 0 3 ("one  two")))).toOption.map
      (fun cs => cs.map (fun c => (c.words?.getD []).map
        (fun w => (w.word?, w.startSec?, w.endSec?))))
    = some [[(some ("one"), some 0, some 1),
             (some (""), some 1, some 2),
             (some ("two"), some 2, some 3)]] := by
  have hsp : jsSplitSpace ("one  two") = [("one"), (""), ("two")] := by decide
  norm_num [geminiSingleSegRaw, processGeminiTranscription, jsDeref,
    Bind.bind, Except.bind, List.enum_cons, List.enumFrom, List.mapM,
    List.mapM.loop, geminiCue, pure, Except.pure, List.enum, hsp,
    Except.toOption, uniformWord, jsSub, jsDivNat, jsMulNat, jsAdd]

/-- Witness for C2 at the concrete scenario span 3..6. -/
theorem c2_uniform_subdivision_witness :
    ((3 : ℚ) ≤ 6)
    ∧ ∃ ws : List JWord,
        processGeminiTranscription (some (geminiSingleSegRaw 3 6 ("one two three")))
          = Except.ok [{ id := 1, startSec? := some 3, endSec? := some 6,
                         text := ("one two three"), words? := some ws }] := by
  refine ⟨by norm_num, ?_⟩
  obtain ⟨⟨ws, hok, _⟩, _⟩ := c2_uniform_subdivision 3 6 (by norm_num) ("one two three")
  exact ⟨ws, hok⟩

/-- Proof-side value of the standard-segment whisper cue: verbatim word
mapping when the segment has a word array, uniform subdivision of its
text otherwise. -/
def whisperStdCueSpec (iseg : Nat × JSegment) : JCue :=
  { id := iseg.1 + 1
    startSec? := some (jsOrD iseg.2.startSec? 0)
    endSec? := jsOrNum iseg.2.endSec? (jsAdd iseg.2.startSec? (some 3))
    text := jsOrStr iseg.2.text? ""
    words? := some (match iseg.2.words? with
      | some ws => ws.map (whisperStdWord iseg.2)
      | none =>
        (jsSplitSpace (iseg.2.text?.getD "")).enum.map
          (uniformWord iseg.2.startSec? iseg.2.endSec?
            (jsSplitSpace (iseg.2.text?.getD "")).length)) }

lemma whisperStdCue_eq_spec (iseg : Nat × JSegment)
    (h : iseg.2.words? = none → (iseg.2.text?).isSome = true) :
    whisperStdCue iseg = Except.ok (whisperStdCueSpec iseg) := by
  rcases hw : iseg.2.words? with _ | ws
  · have hsome := h hw
    rcases ht : iseg.2.text? with _ | txt
    · rw [ht] at hsome; simp at hsome
    · simp [whisperStdCue, whisperStdCueSpec, hw, ht, jsDeref, Bind.bind,
        Except.bind, pure, Except.pure]
  · simp [whisperStdCue, whisperStdCueSpec, hw, Bind.bind, Except.bind,
      pure, Except.pure]

lemma geminiCue_isOk (iseg : Nat × JSegment) (h : (iseg.2.text?).isSome = true) :
    (geminiCue iseg).isOk = true := by
  rcases ht : iseg.2.text? with _ | txt
  · rw [ht] at h; simp at h
  · simp [geminiCue, ht, jsDeref, Bind.bind, Except.bind, pure, Except.pure,
      Except.isOk, Except.toBool]

lemma processTranscription_ok_windows (ws : List JWord) (h : ws.length ≠ 0)
    (raw : JRaw) (hr : raw.words? = some ws) :
    processTranscription (some raw)
      = Except.ok ((List.range ((ws.length + 7) / 8)).map (windowCueSpec ws)) := by
  have hmap : (List.range ((ws.length + 7) / 8)).mapM (mkWindowCue ws)
      = Except.ok ((List.range ((ws.length + 7) / 8)).map (windowCueSpec ws)) := by
    apply mapM_ok_of_forall
    intro i hi
    apply mkWindowCue_eq_spec
    rw [List.mem_range] at hi
    omega
  simp only [processTranscription, jsDeref, Bind.bind, Except.bind, hr,
    wordsPerSegment]
  rw [if_neg h]
  exact hmap

lemma processTranscription_isOk (raw : JRaw) :
    (processTranscription (some raw)).isOk = true := by
  rcases hw : raw.words? with _ | ws
  · simp [processTranscription, jsDeref, hw, Bind.bind, Except.bind, pure,
      Except.pure, Except.isOk, Except.toBool]
  · by_cases hlen : ws.length = 0
    · simp [processTranscription, jsDeref, hw, hlen, Bind.bind, Except.bind,
        pure, Except.pure, Except.isOk, Except.toBool]
    · rw [processTranscription_ok_windows ws hlen raw hw]
      simp [Except.isOk, Except.toBool]

/-- A raw input carrying one cloud-STT segment that has timings but
neither a word array nor a text field. -/
def missingTextSegRaw : JRaw :=
  { segments? := some [{ startSec? := some 0, endSec? := some 3 }] }

/-- Claim C3 (amended): for non-null object inputs, processTranscription
never throws; the segment-driven normalizers never throw provided every
segment carries a text string whenever it lacks a word array (gemini
reads the text unconditionally); a null input, or such a degenerate
segment, raises a TypeError. -/
theorem c3_no_throw (raw : JRaw) :
    (processTranscription (some raw)).isOk = true
    ∧ ((∀ seg ∈ raw.segments?.getD [], seg.words? = none →
          (seg.text?).isSome = true) →
        (processWhisperTranscription (some raw)).isOk = true)
    ∧ ((∀ seg ∈ raw.segments?.getD [], (seg.text?).isSome = true) →
        (processGeminiTranscription (some raw)).isOk = true) := by
  refine ⟨processTranscription_isOk raw, ?_, ?_⟩
  · intro hsafe
    rcases htr : raw.transcription? with _ | csegs
    · rcases hs : raw.segments? with _ | segs
      · simp [processWhisperTranscription, jsDeref, htr, hs, Bind.bind,
          Except.bind, pure, Except.pure, Except.isOk, Except.toBool]
      · rcases segs with _ | ⟨s0, rest⟩
        · simp [processWhisperTranscription, jsDeref, htr, hs, Bind.bind,
            Except.bind, pure, Except.pure, Except.isOk, Except.toBool]
        · have hrun : (s0 :: rest).enum.mapM whisperStdCue
              = Except.ok ((s0 :: rest).enum.map whisperStdCueSpec) := by
            apply mapM_ok_of_forall
            intro iseg hiseg
            apply whisperStdCue_eq_spec
            intro hwnone
            have hmem : iseg.2 ∈ s0 :: rest := List.snd_mem_of_mem_enum hiseg
            have := hsafe iseg.2 (by rw [hs]; simpa using hmem) hwnone
            exact this
          simp only [processWhisperTranscription, jsDeref, htr, hs, Bind.bind,
            Except.bind, hrun]
          simp [Except.isOk, Except.toBool]
    · simp [processWhisperTranscription, jsDeref, htr, Bind.bind, Except.bind,
        pure, Except.pure, Except.isOk, Except.toBool]
  · intro hsafe
    rcases hs : raw.segments? with _ | segs
    · simp [processGeminiTranscription, jsDeref, hs, Bind.bind, Except.bind,
        pure, Except.pure, Except.isOk, Except.toBool]
    · rcases segs with _ | ⟨s0, rest⟩
      · simp [processGeminiTranscription, jsDeref, hs, Bind.bind, Except.bind,
          pure, Except.pure, Except.isOk, Except.toBool]
      · have hrun : ((s0 :: rest).enum.mapM geminiCue).isOk = true := by
          apply mapM_isOk_of_forall
          intro iseg hiseg
          apply geminiCue_isOk
          have hmem : iseg.2 ∈ s0 :: rest := List.snd_mem_of_mem_enum hiseg
          exact hsafe iseg.2 (by rw [hs]; simpa using hmem)
        simp only [processGeminiTranscription, jsDeref, Bind.bind,
          Except.bind, hs]
        exact hrun

/-- Counterexample to C3 as stated: all three normalizers throw a
TypeError on a null input, and the two segment-driven normalizers also
throw on a segment that has neither a word array nor a text field. -/
theorem c3_counterexample :
    processTranscription none = Except.error ()
    ∧ processWhisperTranscription none = Except.error ()
    ∧ processGeminiTranscription none = Except.error ()
    ∧ (processGeminiTranscription (some missingTextSegRaw)).isOk = false
    ∧ (processWhisperTranscription (some missingTextSegRaw)).isOk = false := by
  exact ⟨rfl, rfl, rfl, rfl, rfl⟩

/-- Witness for C3 at a well-formed single-segment input. -/
theorem c3_no_throw_witness :
    (∀ seg ∈ (geminiSingleSegRaw 0 3 ("hi")).segments?.getD [],
      (seg.text?).isSome = true)
    ∧ (processGeminiTranscription (some (geminiSingleSegRaw 0 3 ("hi")))).isOk
        = true := by
  refine ⟨by decide, ?_⟩
  exact (c3_no_throw (geminiSingleSegRaw 0 3 ("hi"))).2.2 (by decide)

/-- A raw input with only (possibly empty) text: the word and segment
fields are absent or empty as the caller chooses. -/
def mkPlainRaw (text? : Option String) (w? : Option (List JWord))
    (s? : Option (List JSegment)) : JRaw :=
  { text? := text?, words? := w?, segments? := s?, transcription? := none }

/-- Claim C6 (amended): on inputs with no usable words and no usable
segments, processTranscription and processGeminiTranscription return
exactly the single cue id 1, 0..5 seconds, raw text or placeholder, and
no word array; processWhisperTranscription returns the same cue except
that it also synthesizes words by splitting the text, word i spanning
the fixed half-second slot i/2 .. (i+1)/2. -/
theorem c6_plain_text_fallback (text? : Option String) (w? : Option (List JWord))
    (s? : Option (List JSegment)) (hw : w? = none ∨ w? = some [])
    (hs : s? = none ∨ s? = some []) :
    processTranscription (some (mkPlainRaw text? w? s?))
      = Except.ok [{ id := 1, startSec? := some 0, endSec? := some 5,
                     text := jsOrStr text? noCaptionsText, words? := none }]
    ∧ processGeminiTranscription (some (mkPlainRaw text? w? s?))
      = Except.ok [{ id := 1, startSec? := some 0, endSec? := some 5,
                     text := jsOrStr text? noCaptionsText, words? := none }]
    ∧ (∃ ws : List JWord,
        processWhisperTranscription (some (mkPlainRaw text? w? s?))
          = Except.ok [{ id := 1, startSec? := some 0, endSec? := some 5,
                         text := jsOrStr text? noCaptionsText, words? := some ws }]
        ∧ ws.length = (jsSplitSpace (jsOrStr text? noCaptionsText)).length
        ∧ (∀ i : Nat, ∀ w, ws[i]? = some w →
            w.word? = (jsSplitSpace (jsOrStr text? noCaptionsText))[i]?
            ∧ w.startSec? = some ((i : ℚ) * (1/2))
            ∧ w.endSec? = some (((i : ℚ) + 1) * (1/2)))) := by
  refine ⟨?_, ?_, ?_⟩
  · rcases hw with hw | hw <;>
      simp [processTranscription, mkPlainRaw, jsDeref, hw, Bind.bind,
        Except.bind, pure, Except.pure, fallbackCue]
  · rcases hs with hs | hs <;>
      simp [processGeminiTranscription, mkPlainRaw, jsDeref, hs, Bind.bind,
        Except.bind, pure, Except.pure, fallbackCue]
  · refine ⟨(jsSplitSpace (jsOrStr text? noCaptionsText)).enum.map (fun iw =>
      { word? := some iw.2
        startSec? := some (iw.1 * (1/2))
        endSec? := some ((iw.1 + 1) * (1/2)) }), ?_, ?_, ?_⟩
    · rcases hs with hs | hs <;>
        simp [processWhisperTranscription, mkPlainRaw, jsDeref, hs, Bind.bind,
          Except.bind, pure, Except.pure, whisperFallbackCue]
    · simp [List.enum_length]
    · intro i w hwi
      rw [List.getElem?_map, List.getElem?_enum] at hwi
      rcases htok : (jsSplitSpace (jsOrStr text? noCaptionsText))[i]? with _ | tok
      · rw [htok] at hwi; simp at hwi
      · rw [htok] at hwi
        simp only [Option.map_some', Option.some.injEq] at hwi
        subst hwi
        exact ⟨by simp, rfl, rfl⟩

/-- Counterexample to C6 as stated: on the shape with empty text and an
empty segment list the whisper normalizer does NOT return a wordless
cue: it synthesizes three words from the placeholder text at fixed
half-second slots. -/
theorem c6_counterexample :
    (processWhisperTranscription (some (mkPlainRaw (some ("")) none (some [])))).toOption.map
      (fun cs => cs.map (fun c => (c.id, c.startSec?, c.endSec?, c.text,
        (c.words?.getD []).map (fun w => (w.word?, w.startSec?, w.endSec?)))))
    = some [(1, some 0, some 5, ("No captions available"),
        [(some ("No"), some 0, some (1/2)),
         (some ("captions"), some (1/2), some 1),
         (some ("available"), some 1, some (3/2))])] := by
  have hsp : jsSplitSpace ("No captions available")
      = [("No"), ("captions"), ("available")] := by decide
  norm_num [mkPlainRaw, processWhisperTranscription, whisperFallbackCue,
    jsOrStr, noCaptionsText, jsDeref, Bind.bind, Except.bind, pure,
    Except.pure, hsp, Except.toOption, List.enum_cons, List.enumFrom,
    List.enum]

/-- Witness for C6 at the input with empty text and empty segments. -/
theorem c6_plain_text_fallback_witness :
    ((none : Option (List JWord)) = none ∨ (none : Option (List JWord)) = some [])
    ∧ ((some ([] : List JSegment)) = none ∨ (some ([] : List JSegment)) = some [])
    ∧ processTranscription (some (mkPlainRaw (some ("")) none (some [])))
        = Except.ok [{ id := 1, startSec? := some 0, endSec? := some 5,
                       text := noCaptionsText, words? := none }] := by
  refine ⟨Or.inl rfl, Or.inr rfl, ?_⟩
  have h := (c6_plain_text_fallback (some ("")) none (some [])
    (Or.inl rfl) (Or.inr rfl)).1
  simpa [jsOrStr] using h

/-- The word of the C7 scenario: it has a token and a start but no end
timing of its own. -/
def c7Word : JWord := { word? := some ("hi"), startSec? := some 2 }

/-- The segment of the C7 scenario: spans 1..9 and supplies its own
word array containing only c7Word. -/
def c7Seg : JSegment :=
  { startSec? := some 1, endSec? := some 9, words? := some [c7Word] }

/-- The raw input of the C7 scenario. -/
def c7Raw : JRaw := { segments? := some [c7Seg] }

/-- Claim C7 (amended): a segment with its own word array is mapped
verbatim: token from the word-or-text field, start falling back to the
segment start when absent (or zero), but a missing end falls back to
the word start plus half a second, not to the segment end. -/
theorem c7_verbatim_words (raw : JRaw) (segs : List JSegment)
    (htr : raw.transcription? = none) (hsegs : raw.segments? = some segs)
    (hne : segs ≠ [])
    (hsafe : ∀ seg ∈ segs, seg.words? = none → (seg.text?).isSome = true) :
    ∃ cues, processWhisperTranscription (some raw) = Except.ok cues
    ∧ cues.length = segs.length
    ∧ (∀ i : Nat, ∀ seg, segs[i]? = some seg → ∀ ws, seg.words? = some ws →
        ∃ c, cues[i]? = some c ∧ ∃ cws, c.words? = some cws
        ∧ cws.length = ws.length
        ∧ (∀ j : Nat, ∀ w, ws[j]? = some w →
            ∃ cw, cws[j]? = some cw
            ∧ (∀ s, w.word? = some s → s ≠ "" → cw.word? = some s)
            ∧ (w.word? = none → cw.word? = w.text?)
            ∧ (w.startSec? = none → cw.startSec? = seg.startSec?)
            ∧ (∀ x, w.startSec? = some x → x ≠ 0 → cw.startSec? = some x)
            ∧ (∀ y, w.endSec? = some y → y ≠ 0 → cw.endSec? = some y)
            ∧ (∀ x, w.endSec? = none → w.startSec? = some x →
                cw.endSec? = some (x + 1/2)))) := by
  rcases segs with _ | ⟨s0, rest⟩
  · exact absurd rfl hne
  have hrun : (s0 :: rest).enum.mapM whisperStdCue
      = Except.ok ((s0 :: rest).enum.map whisperStdCueSpec) := by
    apply mapM_ok_of_forall
    intro iseg hiseg
    apply whisperStdCue_eq_spec
    intro hwnone
    exact hsafe iseg.2 (List.snd_mem_of_mem_enum hiseg) hwnone
  refine ⟨(s0 :: rest).enum.map whisperStdCueSpec, ?_, ?_, ?_⟩
  · simp only [processWhisperTranscription, jsDeref, htr, hsegs, Bind.bind,
      Except.bind, hrun]
  · simp [List.enum_length]
  · intro i seg hsegi ws hws
    refine ⟨whisperStdCueSpec (i, seg), ?_, ?_⟩
    · rw [List.getElem?_map, List.getElem?_enum, hsegi]
      simp
    · refine ⟨ws.map (whisperStdWord seg), ?_, by simp, ?_⟩
      · simp [whisperStdCueSpec, hws]
      · intro j w hwj
        refine ⟨whisperStdWord seg w, ?_, ?_, ?_, ?_, ?_, ?_, ?_⟩
        · rw [List.getElem?_map, hwj]
          simp
        · intro s hword hs
          simp [whisperStdWord, jsOrStrOpt, hword, hs]
        · intro hword
          simp [whisperStdWord, jsOrStrOpt, hword]
        · intro hstart
          simp [whisperStdWord, jsOrNum, hstart]
        · intro x hstart hx
          simp [whisperStdWord, jsOrNum, hstart, hx]
        · intro y hend hy
          simp [whisperStdWord, jsOrNum, hend, hy]
        · intro x hend hstart
          simp [whisperStdWord, jsOrNum, jsAdd, hend, hstart]

/-- Counterexample to C7 as stated: the word of the C7 scenario lacks
its own end, and the produced end is its start plus half a second
(2.5), not the enclosing segment end (9). -/
theorem c7_counterexample :
    (processWhisperTranscription (some c7Raw)).toOption.map
      (fun cs => cs.map (fun c => (c.words?.getD []).map
        (fun w => (w.word?, w.startSec?, w.endSec?))))
    = some [[(some ("hi"), some 2, some (5/2))]]
    ∧ ((5 : ℚ)/2) ≠ 9 := by
  constructor
  · have hne : ("hi" : String) ≠ "" := by decide
    norm_num [hne, c7Raw, c7Seg, c7Word, processWhisperTranscription,
      whisperStdCue, whisperStdWord, jsDeref, jsOrD, jsOrNum, jsOrStr,
      jsOrStrOpt, jsAdd, Bind.bind, Except.bind, pure, Except.pure,
      Except.toOption, List.enum_cons, List.enumFrom, List.enum, List.mapM,
      List.mapM.loop]
  · norm_num

/-- Witness for C7 at the single-segment scenario input. -/
theorem c7_verbatim_words_witness :
    c7Raw.transcription? = none ∧ c7Raw.segments? = some [c7Seg]
    ∧ [c7Seg] ≠ ([] : List JSegment)
    ∧ (∀ seg ∈ [c7Seg], seg.words? = none → (seg.text?).isSome = true)
    ∧ ∃ cues, processWhisperTranscription (some c7Raw) = Except.ok cues := by
  refine ⟨rfl, rfl, by decide, by decide, ?_⟩
  obtain ⟨cues, hc, _⟩ :=
    c7_verbatim_words c7Raw [c7Seg] rfl rfl (by decide) (by decide)
  exact ⟨cues, hc⟩

lemma jsJoinSpace_splitSpaceAux : ∀ (cs acc : List Char),
    jsJoinSpace (splitSpaceAux cs acc) = String.mk (acc.reverse ++ cs) := by
  intro cs
  induction cs with
  | nil => intro acc; simp [splitSpaceAux, jsJoinSpace]
  | cons c cs ih =>
    intro acc
    by_cases hc : c = ' '
    · subst hc
      rcases hrest : splitSpaceAux cs [] with _ | ⟨r0, rs⟩
      · exact absurd hrest (splitSpaceAux_ne_nil cs [])
      · have hstep : splitSpaceAux (' ' :: cs) acc
            = String.mk acc.reverse :: (r0 :: rs) := by
          rw [← hrest]
          simp [splitSpaceAux]
        rw [hstep]
        have hjoin : jsJoinSpace (String.mk acc.reverse :: r0 :: rs)
            = String.mk acc.reverse ++ " " ++ jsJoinSpace (r0 :: rs) := rfl
        rw [hjoin, ← hrest, ih []]
        have happ : String.mk acc.reverse ++ " " ++ String.mk (List.reverse [] ++ cs)
            = String.mk ((acc.reverse ++ [' ']) ++ cs) := rfl
        rw [happ]
        congr 1
        simp
    · simp only [splitSpaceAux, if_neg hc]
      rw [ih (c :: acc)]
      congr 1
      simp

/-- Joining the JS split of a string with single spaces restores the
string. -/
lemma jsJoinSpace_jsSplitSpace (s : String) : jsJoinSpace (jsSplitSpace s) = s := by
  rw [jsSplitSpace, jsJoinSpace_splitSpaceAux]
  rfl

lemma jsJoinSpaceO_map_some (l : List String) :
    jsJoinSpaceO (l.map some) = jsJoinSpace l := by
  simp only [jsJoinSpaceO, List.map_map]
  have hfun : ((fun s? => s?.getD "") ∘ some : String → String) = id := by
    funext s
    simp
  rw [hfun, List.map_id]

lemma processGemini_single (a b : ℚ) (text : String) :
    processGeminiTranscription (some (geminiSingleSegRaw a b text))
      = Except.ok [{ id := 1, startSec? := some a, endSec? := some b, text := text,
                     words? := some ((jsSplitSpace text).enum.map
                       (uniformWord (some a) (some b) (jsSplitSpace text).length)) }] := by
  simp only [geminiSingleSegRaw, processGeminiTranscription, jsDeref,
    Bind.bind, Except.bind, List.enum_cons, List.enumFrom, List.mapM,
    List.mapM.loop, geminiCue, pure, Except.pure, List.enum]
  rfl

/-- Claim C8 (amended): the cue-level invariant (start from the first
derived word, end from the last derived word, text the trimmed space
join of the word tokens) holds for the word-windowing segmenter, and
for the gemini uniform subdivision it holds for the endpoints, with the
text equation holding exactly when the segment text is already trimmed;
it does NOT hold for the fixed-slot word synthesis of the demo captions
or the whisper plain-text fallback. -/
theorem c8_derived_invariant :
    (∀ ws : List JWord, ws ≠ [] → ∀ raw : JRaw, raw.words? = some ws →
      ∀ cues, processTranscription (some raw) = Except.ok cues →
        ∀ c ∈ cues, ∃ cws, c.words? = some cws ∧ cws ≠ []
          ∧ c.startSec? = cws.head?.bind (fun w => w.startSec?)
          ∧ c.endSec? = cws.getLast?.bind (fun w => w.endSec?)
          ∧ c.text = jsTrim (jsJoinSpaceO (cws.map (fun w => w.word?))))
    ∧ (∀ a b : ℚ, ∀ text : String, ∀ cues,
        processGeminiTranscription (some (geminiSingleSegRaw a b text))
          = Except.ok cues →
        ∀ c ∈ cues, ∃ cws, c.words? = some cws ∧ cws ≠ []
          ∧ c.startSec? = cws.head?.bind (fun w => w.startSec?)
          ∧ c.endSec? = cws.getLast?.bind (fun w => w.endSec?)
          ∧ (jsTrim text = text →
              c.text = jsTrim (jsJoinSpaceO (cws.map (fun w => w.word?))))) := by
  constructor
  · intro ws hne raw hr cues hcue c hc
    have hlen : ws.length ≠ 0 := fun h0 => hne (List.length_eq_zero.mp h0)
    rw [processTranscription_ok_windows ws hlen raw hr] at hcue
    have hval := Except.ok.inj hcue
    subst hval
    rcases List.mem_map.mp hc with ⟨i, hi, rfl⟩
    rw [List.mem_range] at hi
    have hiw : i * 8 < ws.length := by omega
    exact ⟨_, rfl, window_ne_nil hiw, rfl, rfl, rfl⟩
  · intro a b text cues hcue c hc
    rw [processGemini_single] at hcue
    have hval := Except.ok.inj hcue
    subst hval
    rw [List.mem_singleton] at hc
    subst hc
    have hnpos := jsSplitSpace_length_pos text
    have hn : (jsSplitSpace text).length ≠ 0 := by omega
    have hcast : ((jsSplitSpace text).length : ℚ) ≠ 0 := by exact_mod_cast hn
    refine ⟨_, rfl, ?_, ?_, ?_, ?_⟩
    · have : ((jsSplitSpace text).enum.map (uniformWord (some a) (some b)
          (jsSplitSpace text).length)).length = (jsSplitSpace text).length := by
        simp [List.enum_length]
      intro h0
      rw [h0] at this
      simp at this
      omega
    · rcases htoks : jsSplitSpace text with _ | ⟨t0, ts⟩
      · exact absurd htoks (jsSplitSpace_ne_nil text)
      · rw [htoks] at hn
        simp only [List.enum_cons, List.map_cons, List.head?_cons,
          Option.some_bind, uniformWord, jsSub, jsDivNat, if_neg hn, jsMulNat,
          jsAdd, Option.some.injEq]
        push_cast
        ring
    · have hlen2 : ((jsSplitSpace text).enum.map
          (uniformWord (some a) (some b) (jsSplitSpace text).length)).length
          = (jsSplitSpace text).length := by
        simp [List.enum_length]
      rw [List.getLast?_eq_getElem?, hlen2, List.getElem?_map, List.getElem?_enum]
      rcases htok : (jsSplitSpace text)[(jsSplitSpace text).length - 1]? with _ | tok
      · rw [List.getElem?_eq_none_iff] at htok
        omega
      · simp only [Option.map_some', Option.some_bind, uniformWord, jsSub,
          jsDivNat, if_neg hn, jsMulNat, jsAdd, Option.some.injEq]
        have hsub : ((jsSplitSpace text).length - 1 + 1 : ℕ)
            = (jsSplitSpace text).length := by omega
        rw [hsub]
        field_simp
    · intro htrim
      have hmapw : ((jsSplitSpace text).enum.map (uniformWord (some a) (some b)
            (jsSplitSpace text).length)).map (fun w => w.word?)
          = (jsSplitSpace text).map some := by
        rw [List.map_map]
        have hfun : ((fun w => w.word?) ∘ uniformWord (some a) (some b)
              (jsSplitSpace text).length)
            = (some ∘ Prod.snd : Nat × String → Option String) := by
          funext iw
          simp [uniformWord, Function.comp]
        rw [hfun, ← List.map_map, List.enum_map_snd]
      show text = jsTrim (jsJoinSpaceO _)
      rw [hmapw, jsJoinSpaceO_map_some, jsJoinSpace_jsSplitSpace, htrim]

/-- Counterexample to C8 as stated: the first demo caption cue ends at
3 seconds while its last synthesized word ends at 12/5 = 2.4 seconds,
so a derived cue whose end differs from its last word end exists. -/
theorem c8_counterexample :
    generateDemoCaptions.head?.map (fun c =>
      (c.endSec?, (c.words?.getD []).getLast?.map (fun w => w.endSec?)))
    = some (some 3, some (some (12/5)))
    ∧ ((12 : ℚ)/5) ≠ 3 := by
  constructor
  · have hsp : jsSplitSpace ("Welcome to this amazing video demonstration")
        = [("Welcome"), ("to"), ("this"), ("amazing"), ("video"),
           ("demonstration")] := by decide
    norm_num [generateDemoCaptions, demoTexts, List.enum_cons, List.enumFrom,
      List.enum, hsp]
  · norm_num

/-- The word of the C8 witness input. -/
def c8Word : JWord := { word? := some ("hi"), startSec? := some 2, endSec? := some 3 }

/-- Witness for C8 at a one-word transcription. -/
theorem c8_derived_invariant_witness :
    ([c8Word] ≠ ([] : List JWord))
    ∧ ({ words? := some [c8Word] } : JRaw).words? = some [c8Word]
    ∧ ∃ cues, processTranscription (some { words? := some [c8Word] })
        = Except.ok cues
      ∧ ∀ c ∈ cues, ∃ cws, c.words? = some cws ∧ cws ≠ [] := by
  refine ⟨by decide, rfl, ?_⟩
  have hok := processTranscription_ok_windows [c8Word] (by decide)
    { words? := some [c8Word] } rfl
  refine ⟨_, hok, ?_⟩
  intro c hc
  obtain ⟨cws, h1, h2, _⟩ := c8_derived_invariant.1 [c8Word] (by decide)
    { words? := some [c8Word] } rfl _ hok c hc
  exact ⟨cws, h1, h2⟩

end Captions
